import Mathlib

/-!
Shallow embedding of the VGA text-buffer driver (`src/vga_buffer.rs`) of a
minimal bare-metal kernel.  The hardware character grid is modelled as a
total function from (row, column) indices to screen cells; the volatile
read/write discipline of the original code becomes ordinary functional
reads and pointwise functional updates, applied in exactly the order the
Rust code performs them (the scroll loop in `new_line` reads from the
partially updated buffer, as the source does).  Machine integers (`u8`,
`usize`) are modelled as `Nat`; none of the arithmetic in the source can
overflow (`col + 1` stays far below `usize::MAX`, and the packed color
byte `(bg << 4) | fg` stays below 256 because both color codes are below
16), so no modular reduction is needed for bit-exactness.
-/

namespace VGA

/-- The 16 VGA colors, `Color` in the source (`#[repr(u8)]`). -/
inductive Color where
  | Black
  | Blue
  | Green
  | Cyan
  | Red
  | Magenta
  | Brown
  | LightGray
  | DarkGray
  | LightBlue
  | LightGreen
  | LightCyan
  | LightRed
  | Pink
  | Yellow
  | White
deriving DecidableEq, Repr, Fintype

/-- The `u8` discriminant of each `Color` variant (`color as u8`). -/
def Color.toNat : Color → Nat
  | .Black => 0
  | .Blue => 1
  | .Green => 2
  | .Cyan => 3
  | .Red => 4
  | .Magenta => 5
  | .Brown => 6
  | .LightGray => 7
  | .DarkGray => 8
  | .LightBlue => 9
  | .LightGreen => 10
  | .LightCyan => 11
  | .LightRed => 12
  | .Pink => 13
  | .Yellow => 14
  | .White => 15

/-- The packed color byte, `struct ColorCode(u8)` in the source. -/
@[ext]
structure ColorCode where
  code : Nat
deriving DecidableEq, Repr

/-- Source `ColorCode::new`: `(background as u8) << 4 | (text_color as u8)`. -/
def ColorCode.new (text_color background : Color) : ColorCode :=
  ⟨(background.toNat <<< 4) ||| text_color.toNat⟩

/-- One grid cell, `struct ScreenChar { ascii_char: u8, color: ColorCode }`. -/
@[ext]
structure ScreenChar where
  ascii_char : Nat
  color : ColorCode
deriving DecidableEq, Repr

/-- Source constant `BUFFER_HEIGHT: usize = 25`. -/
def BUFFER_HEIGHT : Nat := 25

/-- Source constant `BUFFER_WIDTH: usize = 80`. -/
def BUFFER_WIDTH : Nat := 80

/-- The memory-mapped character grid, `struct Buffer { chars: [[Volatile<ScreenChar>; BUFFER_WIDTH]; BUFFER_HEIGHT] }`,
modelled as a total function on indices.  A volatile write becomes a pointwise
functional update and a volatile read a function application. -/
@[ext]
structure Buffer where
  chars : Nat → Nat → ScreenChar

/-- One volatile write `self.buffer.chars[r][c].write(sc)`. -/
def Buffer.write (b : Buffer) (r c : Nat) (sc : ScreenChar) : Buffer :=
  ⟨fun i j => if i = r ∧ j = c then sc else b.chars i j⟩

/-- The display writer, `struct Writer { row, col, text_color, background, buffer }`. -/
@[ext]
structure Writer where
  row : Nat
  col : Nat
  text_color : Color
  background : Color
  buffer : Buffer

/-- The blank cell built inside `Writer::clear_row`: ASCII space (`b' '` = 32)
with the packed form of the current default colors. -/
def Writer.blank (w : Writer) : ScreenChar :=
  ⟨32, ColorCode.new w.text_color w.background⟩

/-- Source `Writer::clear_row`: `for col in 0..BUFFER_WIDTH { self.buffer.chars[row][col].write(blank) }`. -/
def Writer.clear_row (w : Writer) (row : Nat) : Writer :=
  { w with
    buffer := (List.range BUFFER_WIDTH).foldl (fun b col => b.write row col w.blank) w.buffer }

/-- One iteration of the outer scroll loop in `Writer::new_line`:
`for col in 0..BUFFER_WIDTH { let character = self.buffer.chars[row][col].read(); self.buffer.chars[row - 1][col].write(character); }`.
Reads go to the accumulated buffer, exactly as the interleaved volatile
reads and writes of the source do. -/
def shiftRowUp (b : Buffer) (row : Nat) : Buffer :=
  (List.range BUFFER_WIDTH).foldl (fun acc col => acc.write (row - 1) col (acc.chars row col)) b

/-- Source `Writer::new_line`: when on the bottom row (`row == BUFFER_HEIGHT - 1`),
run the scroll loop `for row in 1..BUFFER_HEIGHT` and then `clear_row(BUFFER_HEIGHT - 1)`;
otherwise increment the row; in both cases reset the column to 0. -/
def Writer.new_line (w : Writer) : Writer :=
  if w.row = BUFFER_HEIGHT - 1 then
    let w1 : Writer :=
      { w with buffer := (List.range' 1 (BUFFER_HEIGHT - 1)).foldl shiftRowUp w.buffer }
    let w2 := w1.clear_row (BUFFER_HEIGHT - 1)
    { w2 with col := 0 }
  else
    { w with row := w.row + 1, col := 0 }

/-- Source `Writer::write_colored_byte`.  The newline byte `b'\n'` is 10. -/
def Writer.write_colored_byte (w : Writer) (byte : Nat) (text_color background : Color) :
    Writer :=
  if byte = 10 then
    w.new_line
  else
    let w1 := if BUFFER_WIDTH ≤ w.col then w.new_line else w
    let w2 :=
      { w1 with
        buffer := w1.buffer.write w1.row w1.col ⟨byte, ColorCode.new text_color background⟩ }
    { w2 with col := w2.col + 1 }

/-- Source `Writer::write_byte`: delegates with the current default colors. -/
def Writer.write_byte (w : Writer) (byte : Nat) : Writer :=
  w.write_colored_byte byte w.text_color w.background

/-- The body of the `for byte in s.bytes()` loop of `Writer::write_string`:
printable ASCII (`0x20..=0x7e`) and newline pass through `write_byte`; any
other byte is replaced by the glyph `0xfe`, in Yellow when the background is
Red and in Red otherwise. -/
def Writer.write_string_step (w : Writer) (byte : Nat) : Writer :=
  if (0x20 ≤ byte ∧ byte ≤ 0x7e) ∨ byte = 10 then
    w.write_byte byte
  else if w.background = Color.Red then
    w.write_colored_byte 0xfe Color.Yellow w.background
  else
    w.write_colored_byte 0xfe Color.Red w.background

/-- Source `Writer::write_string`: fold the per-byte loop body over the
byte sequence of the input string. -/
def Writer.write_string (w : Writer) (s : List Nat) : Writer :=
  s.foldl Writer.write_string_step w

/-- Source `Writer::write_colored_string`: both match arms (printable-or-newline
and everything else) forward the byte unchanged to `write_colored_byte` with the
caller-supplied colors. -/
def Writer.write_colored_string (w : Writer) (s : List Nat) (text_color background : Color) :
    Writer :=
  s.foldl
    (fun w byte =>
      if (0x20 ≤ byte ∧ byte ≤ 0x7e) ∨ byte = 10 then
        w.write_colored_byte byte text_color background
      else
        w.write_colored_byte byte text_color background)
    w

/-- The `core::fmt::Result` of the source, `Result<(), fmt::Error>`. -/
inductive FmtResult where
  | Ok
  | Err
deriving DecidableEq, Repr

/-- Source `impl fmt::Write for Writer`: `write_str` runs `write_string` and
returns `Ok(())`. -/
def Writer.write_str (w : Writer) (s : List Nat) : Writer × FmtResult :=
  (w.write_string s, FmtResult.Ok)

/-- Source `_print`: locks the global writer and calls `write_fmt(args).unwrap()`.
the formatted arguments arrive at `Writer::write_str` as byte sequences; the
`unwrap` panics exactly when the result is `Err`, modelled by `none`. -/
def Writer.print (w : Writer) (s : List Nat) : Option Writer :=
  match w.write_str s with
  | (wout, FmtResult.Ok) => some wout
  | (_, FmtResult.Err) => none

/-- The writer installed in the global `WRITER` static: row 0, column 0,
white text on black background.  The initial contents of the hardware grid
are unknown; this model instance takes an all-blank grid. -/
def initialWriter : Writer :=
  { row := 0
    col := 0
    text_color := Color.White
    background := Color.Black
    buffer := ⟨fun _ _ => ⟨32, ColorCode.new Color.White Color.Black⟩⟩ }

/-- A concrete buffer with distinct printable content in every cell, used to
exercise the scroll transition on concrete inputs. -/
def demoBuffer : Buffer :=
  ⟨fun r c => ⟨33 + (r * 80 + c) % 90, ColorCode.new Color.White Color.Black⟩⟩

/-- A concrete writer sitting on the bottom row, about to scroll. -/
def scrollWriter : Writer :=
  { row := 24
    col := 7
    text_color := Color.LightGreen
    background := Color.Blue
    buffer := demoBuffer }

/-- A concrete writer whose column has reached the right edge of the grid. -/
def fullColWriter : Writer :=
  { row := 3
    col := 80
    text_color := Color.White
    background := Color.Black
    buffer := demoBuffer }

@[simp]
lemma Buffer.chars_write (b : Buffer) (r c : Nat) (sc : ScreenChar) (i j : Nat) :
    (b.write r c sc).chars i j = if i = r ∧ j = c then sc else b.chars i j :=
  rfl

lemma foldl_write_const (row : Nat) (sc : ScreenChar) (l : List Nat) (b : Buffer) (i j : Nat) :
    ((l.foldl (fun acc col => acc.write row col sc) b).chars i j) =
      if i = row ∧ j ∈ l then sc else b.chars i j := by
  induction l generalizing b with
  | nil => simp
  | cons a t ih =>
    rw [List.foldl_cons, ih]
    by_cases hi : i = row <;> by_cases hj : j = a <;> by_cases ht : j ∈ t <;>
      simp [hi, hj, ht]

lemma clear_row_buffer (w : Writer) (row i j : Nat) :
    (w.clear_row row).buffer.chars i j =
      if i = row ∧ j < BUFFER_WIDTH then w.blank else w.buffer.chars i j := by
  show ((List.range BUFFER_WIDTH).foldl (fun b col => b.write row col w.blank)
      w.buffer).chars i j = _
  rw [foldl_write_const]
  simp [List.mem_range]

@[simp]
lemma clear_row_row (w : Writer) (row : Nat) : (w.clear_row row).row = w.row := rfl

@[simp]
lemma clear_row_col (w : Writer) (row : Nat) : (w.clear_row row).col = w.col := rfl

@[simp]
lemma clear_row_text_color (w : Writer) (row : Nat) :
    (w.clear_row row).text_color = w.text_color := rfl

@[simp]
lemma clear_row_background (w : Writer) (row : Nat) :
    (w.clear_row row).background = w.background := rfl

lemma foldl_write_from_row (row : Nat) (hrow : 1 ≤ row) (l : List Nat) (b b0 : Buffer)
    (hagree : ∀ c, b.chars row c = b0.chars row c) (i j : Nat) :
    ((l.foldl (fun acc col => acc.write (row - 1) col (acc.chars row col)) b).chars i j) =
      if i = row - 1 ∧ j ∈ l then b0.chars row j else b.chars i j := by
  induction l generalizing b with
  | nil => simp
  | cons a t ih =>
    have hne : ¬ row = row - 1 := by omega
    rw [List.foldl_cons]
    rw [ih (b.write (row - 1) a (b.chars row a))
      (fun c => by simp [Buffer.chars_write, hne, hagree c])]
    by_cases hi : i = row - 1 <;> by_cases hj : j = a <;> by_cases ht : j ∈ t <;>
      simp [hi, hj, ht, hagree]

lemma shiftRowUp_chars (b : Buffer) (row : Nat) (hrow : 1 ≤ row) (i j : Nat) :
    (shiftRowUp b row).chars i j =
      if i = row - 1 ∧ j < BUFFER_WIDTH then b.chars row j else b.chars i j := by
  show ((List.range BUFFER_WIDTH).foldl
      (fun acc col => acc.write (row - 1) col (acc.chars row col)) b).chars i j = _
  rw [foldl_write_from_row row hrow _ b b (fun _ => rfl)]
  simp [List.mem_range]

lemma shift_fold_chars (b : Buffer) (k : Nat) (i j : Nat) :
    ((List.range' 1 k).foldl shiftRowUp b).chars i j =
      if i < k ∧ j < BUFFER_WIDTH then b.chars (i + 1) j else b.chars i j := by
  induction k generalizing i j with
  | zero => simp
  | succ k ih =>
    rw [List.range'_concat, List.foldl_append, List.foldl_cons, List.foldl_nil]
    rw [shiftRowUp_chars _ (1 + 1 * k) (by omega)]
    have hk1 : 1 + 1 * k - 1 = k := by omega
    have hk2 : 1 + 1 * k = k + 1 := by omega
    rw [hk1, hk2, ih, ih]
    by_cases hi : i = k <;> by_cases hj : j < BUFFER_WIDTH
    · have h1 : ¬ k + 1 < k := by omega
      simp [hi, hj, h1, Nat.lt_succ_self]
    · simp [hi, hj]
    · by_cases hik : i < k
      · simp [hi, hj, hik, Nat.lt_succ_of_lt hik]
      · have h2 : ¬ i < k + 1 := by omega
        simp [hi, hj, hik, h2]
    · simp [hi, hj]

lemma new_line_of_ne (w : Writer) (h : ¬ w.row = BUFFER_HEIGHT - 1) :
    w.new_line = { w with row := w.row + 1, col := 0 } := by
  simp [Writer.new_line, h]

lemma new_line_eq_of_eq (w : Writer) (h : w.row = BUFFER_HEIGHT - 1) :
    w.new_line =
      { ({ w with
            buffer := (List.range' 1 (BUFFER_HEIGHT - 1)).foldl shiftRowUp w.buffer } :
          Writer).clear_row (BUFFER_HEIGHT - 1) with
        col := 0 } := by
  simp [Writer.new_line, h]

lemma new_line_chars_of_eq (w : Writer) (h : w.row = BUFFER_HEIGHT - 1) (i j : Nat) :
    (w.new_line).buffer.chars i j =
      if i < BUFFER_HEIGHT - 1 ∧ j < BUFFER_WIDTH then w.buffer.chars (i + 1) j
      else if i = BUFFER_HEIGHT - 1 ∧ j < BUFFER_WIDTH then w.blank
      else w.buffer.chars i j := by
  rw [new_line_eq_of_eq w h]
  show ((({ w with
      buffer := (List.range' 1 (BUFFER_HEIGHT - 1)).foldl shiftRowUp w.buffer } :
        Writer).clear_row (BUFFER_HEIGHT - 1))).buffer.chars i j = _
  rw [clear_row_buffer]
  show (if i = BUFFER_HEIGHT - 1 ∧ j < BUFFER_WIDTH then w.blank
      else ((List.range' 1 (BUFFER_HEIGHT - 1)).foldl shiftRowUp w.buffer).chars i j) = _
  rw [shift_fold_chars]
  by_cases h1 : i = BUFFER_HEIGHT - 1 <;> by_cases h2 : j < BUFFER_WIDTH <;>
    by_cases h3 : i < BUFFER_HEIGHT - 1 <;>
    simp [BUFFER_HEIGHT, BUFFER_WIDTH] at h1 h2 h3 ⊢ <;>
    simp [h1, h2, h3]

@[simp]
lemma new_line_col (w : Writer) : (w.new_line).col = 0 := by
  by_cases h : w.row = BUFFER_HEIGHT - 1 <;> simp [Writer.new_line, h]

@[simp]
lemma new_line_text_color (w : Writer) : (w.new_line).text_color = w.text_color := by
  by_cases h : w.row = BUFFER_HEIGHT - 1 <;> simp [Writer.new_line, h]

@[simp]
lemma new_line_background (w : Writer) : (w.new_line).background = w.background := by
  by_cases h : w.row = BUFFER_HEIGHT - 1 <;> simp [Writer.new_line, h]

lemma new_line_row_of_eq (w : Writer) (h : w.row = BUFFER_HEIGHT - 1) :
    (w.new_line).row = w.row := by
  simp [Writer.new_line, h]

lemma new_line_row_of_ne (w : Writer) (h : ¬ w.row = BUFFER_HEIGHT - 1) :
    (w.new_line).row = w.row + 1 := by
  simp [Writer.new_line, h]

lemma new_line_row_le (w : Writer) (h : w.row ≤ BUFFER_HEIGHT - 1) :
    (w.new_line).row ≤ BUFFER_HEIGHT - 1 := by
  by_cases heq : w.row = BUFFER_HEIGHT - 1
  · rw [new_line_row_of_eq w heq]
    exact h
  · rw [new_line_row_of_ne w heq]
    omega

lemma wcb_of_newline (w : Writer) (tc bg : Color) :
    w.write_colored_byte 10 tc bg = w.new_line := by
  simp [Writer.write_colored_byte]

lemma wcb_of_lt (w : Writer) (byte : Nat) (tc bg : Color) (h10 : ¬ byte = 10)
    (hcol : w.col < BUFFER_WIDTH) :
    w.write_colored_byte byte tc bg =
      { w with
        buffer := w.buffer.write w.row w.col ⟨byte, ColorCode.new tc bg⟩
        col := w.col + 1 } := by
  have hc : ¬ BUFFER_WIDTH ≤ w.col := by omega
  simp [Writer.write_colored_byte, h10, hc]

lemma wcb_of_ge (w : Writer) (byte : Nat) (tc bg : Color) (h10 : ¬ byte = 10)
    (hcol : BUFFER_WIDTH ≤ w.col) :
    w.write_colored_byte byte tc bg =
      { w.new_line with
        buffer :=
          (w.new_line).buffer.write (w.new_line).row (w.new_line).col
            ⟨byte, ColorCode.new tc bg⟩
        col := (w.new_line).col + 1 } := by
  simp [Writer.write_colored_byte, h10, hcol]

lemma wcb_row_le (w : Writer) (byte : Nat) (tc bg : Color) (h : w.row ≤ BUFFER_HEIGHT - 1) :
    (w.write_colored_byte byte tc bg).row ≤ BUFFER_HEIGHT - 1 := by
  by_cases h10 : byte = 10
  · rw [h10, wcb_of_newline]
    exact new_line_row_le w h
  · by_cases hcol : BUFFER_WIDTH ≤ w.col
    · rw [wcb_of_ge w byte tc bg h10 hcol]
      exact new_line_row_le w h
    · rw [wcb_of_lt w byte tc bg h10 (by omega)]
      exact h

lemma write_string_step_row_le (w : Writer) (byte : Nat) (h : w.row ≤ BUFFER_HEIGHT - 1) :
    (w.write_string_step byte).row ≤ BUFFER_HEIGHT - 1 := by
  unfold Writer.write_string_step Writer.write_byte
  split
  · exact wcb_row_le _ _ _ _ h
  · split
    · exact wcb_row_le _ _ _ _ h
    · exact wcb_row_le _ _ _ _ h

lemma write_string_row_le (s : List Nat) (w : Writer) (h : w.row ≤ BUFFER_HEIGHT - 1) :
    (w.write_string s).row ≤ BUFFER_HEIGHT - 1 := by
  induction s generalizing w with
  | nil => exact h
  | cons b t ih =>
    show ((w.write_string_step b).write_string t).row ≤ BUFFER_HEIGHT - 1
    exact ih _ (write_string_step_row_le w b h)

lemma write_colored_string_row_le (s : List Nat) (w : Writer) (tc bg : Color)
    (h : w.row ≤ BUFFER_HEIGHT - 1) :
    (w.write_colored_string s tc bg).row ≤ BUFFER_HEIGHT - 1 := by
  induction s generalizing w with
  | nil => exact h
  | cons b t ih =>
    unfold Writer.write_colored_string
    rw [List.foldl_cons]
    refine ih _ ?_
    split
    · exact wcb_row_le _ _ _ _ h
    · exact wcb_row_le _ _ _ _ h

lemma new_line_oob (w : Writer) (i j : Nat) (h : BUFFER_HEIGHT ≤ i ∨ BUFFER_WIDTH ≤ j) :
    (w.new_line).buffer.chars i j = w.buffer.chars i j := by
  by_cases heq : w.row = BUFFER_HEIGHT - 1
  · rw [new_line_chars_of_eq w heq]
    have h1 : ¬ (i < BUFFER_HEIGHT - 1 ∧ j < BUFFER_WIDTH) := by
      simp [BUFFER_HEIGHT, BUFFER_WIDTH] at h ⊢
      omega
    have h2 : ¬ (i = BUFFER_HEIGHT - 1 ∧ j < BUFFER_WIDTH) := by
      simp [BUFFER_HEIGHT, BUFFER_WIDTH] at h ⊢
      omega
    simp [h1, h2]
  · rw [new_line_of_ne w heq]

lemma wcb_oob (w : Writer) (byte : Nat) (tc bg : Color) (i j : Nat)
    (hrow : w.row ≤ BUFFER_HEIGHT - 1) (h : BUFFER_HEIGHT ≤ i ∨ BUFFER_WIDTH ≤ j) :
    (w.write_colored_byte byte tc bg).buffer.chars i j = w.buffer.chars i j := by
  by_cases h10 : byte = 10
  · rw [h10, wcb_of_newline]
    exact new_line_oob w i j h
  · by_cases hcol : BUFFER_WIDTH ≤ w.col
    · rw [wcb_of_ge w byte tc bg h10 hcol]
      show ((w.new_line).buffer.write (w.new_line).row (w.new_line).col _).chars i j = _
      rw [Buffer.chars_write]
      have hmiss : ¬ (i = (w.new_line).row ∧ j = (w.new_line).col) := by
        have hr := new_line_row_le w hrow
        have hc := new_line_col w
        simp [BUFFER_HEIGHT, BUFFER_WIDTH] at h hr ⊢
        omega
      rw [if_neg hmiss]
      exact new_line_oob w i j h
    · rw [wcb_of_lt w byte tc bg h10 (by omega)]
      show (w.buffer.write w.row w.col _).chars i j = _
      rw [Buffer.chars_write]
      have hmiss : ¬ (i = w.row ∧ j = w.col) := by
        simp [BUFFER_HEIGHT, BUFFER_WIDTH] at h hrow hcol ⊢
        omega
      rw [if_neg hmiss]

lemma write_string_step_oob (w : Writer) (byte : Nat) (i j : Nat)
    (hrow : w.row ≤ BUFFER_HEIGHT - 1) (h : BUFFER_HEIGHT ≤ i ∨ BUFFER_WIDTH ≤ j) :
    (w.write_string_step byte).buffer.chars i j = w.buffer.chars i j := by
  unfold Writer.write_string_step Writer.write_byte
  split
  · exact wcb_oob _ _ _ _ _ _ hrow h
  · split
    · exact wcb_oob _ _ _ _ _ _ hrow h
    · exact wcb_oob _ _ _ _ _ _ hrow h

lemma write_string_oob (s : List Nat) (w : Writer) (i j : Nat)
    (hrow : w.row ≤ BUFFER_HEIGHT - 1) (h : BUFFER_HEIGHT ≤ i ∨ BUFFER_WIDTH ≤ j) :
    (w.write_string s).buffer.chars i j = w.buffer.chars i j := by
  induction s generalizing w with
  | nil => rfl
  | cons b t ih =>
    show ((w.write_string_step b).write_string t).buffer.chars i j = _
    rw [ih _ (write_string_step_row_le w b hrow)]
    exact write_string_step_oob w b i j hrow h

lemma write_string_printable_cursor (s : List Nat) (w : Writer)
    (hp : ∀ b ∈ s, 0x20 ≤ b ∧ b ≤ 0x7e) (hlen : w.col + s.length ≤ BUFFER_WIDTH) :
    (w.write_string s).row = w.row ∧ (w.write_string s).col = w.col + s.length := by
  induction s generalizing w with
  | nil => exact ⟨rfl, rfl⟩
  | cons b t ih =>
    have hb := hp b (List.mem_cons_self b t)
    have h10 : ¬ b = 10 := by omega
    simp only [List.length_cons] at hlen
    have hcol : w.col < BUFFER_WIDTH := by omega
    have hstep : w.write_string_step b =
        { w with
          buffer := w.buffer.write w.row w.col ⟨b, ColorCode.new w.text_color w.background⟩
          col := w.col + 1 } := by
      unfold Writer.write_string_step Writer.write_byte
      rw [if_pos (Or.inl hb)]
      exact wcb_of_lt w b w.text_color w.background h10 hcol
    have hws : w.write_string (b :: t) = (w.write_string_step b).write_string t := rfl
    have ht := ih
      { w with
        buffer := w.buffer.write w.row w.col ⟨b, ColorCode.new w.text_color w.background⟩
        col := w.col + 1 }
      (fun x hx => hp x (List.mem_cons_of_mem b hx))
      (by show w.col + 1 + t.length ≤ BUFFER_WIDTH; omega)
    rw [hws, hstep]
    refine ⟨ht.1, ?_⟩
    rw [ht.2]
    show w.col + 1 + t.length = w.col + (t.length + 1)
    omega

/-- C1: the new_line transition always resets the column to 0; when the row is
below 24 it increments the row by 1; when the row is 24 it moves the content of
row r into row r - 1 for every r in [1, 24] across all 80 columns, clears row
24 to blank cells carrying the writer's current default colors, and keeps the
row at 24. -/
theorem C1_new_line_transition (w : Writer) :
    (w.new_line).col = 0 ∧
    (w.row < 24 → (w.new_line).row = w.row + 1) ∧
    (w.row = 24 →
      (w.new_line).row = 24 ∧
      (∀ r c, 1 ≤ r → r ≤ 24 → c < 80 →
        (w.new_line).buffer.chars (r - 1) c = w.buffer.chars r c) ∧
      (∀ c, c < 80 →
        (w.new_line).buffer.chars 24 c = ⟨32, ColorCode.new w.text_color w.background⟩)) := by
  have hBH : BUFFER_HEIGHT - 1 = 24 := rfl
  refine ⟨new_line_col w, ?_, ?_⟩
  · intro h
    have hne : ¬ w.row = BUFFER_HEIGHT - 1 := by rw [hBH]; omega
    exact new_line_row_of_ne w hne
  · intro h
    have heq : w.row = BUFFER_HEIGHT - 1 := by rw [hBH]; exact h
    refine ⟨?_, ?_, ?_⟩
    · rw [new_line_row_of_eq w heq]
      exact h
    · intro r c h1 h24 hc
      rw [new_line_chars_of_eq w heq]
      have hcond : r - 1 < BUFFER_HEIGHT - 1 ∧ c < BUFFER_WIDTH := by
        rw [hBH]
        exact ⟨by omega, hc⟩
      rw [if_pos hcond]
      have hr : r - 1 + 1 = r := by omega
      rw [hr]
    · intro c hc
      rw [new_line_chars_of_eq w heq]
      have hc1 : ¬ ((24 : Nat) < BUFFER_HEIGHT - 1 ∧ c < BUFFER_WIDTH) := by
        rw [hBH]
        omega
      have hc2 : (24 : Nat) = BUFFER_HEIGHT - 1 ∧ c < BUFFER_WIDTH := by
        rw [hBH]
        exact ⟨rfl, hc⟩
      rw [if_neg hc1, if_pos hc2]
      rfl

/-- Witness for C1 on a concrete writer sitting on the bottom row. -/
theorem C1_new_line_transition_witness :
    (scrollWriter.new_line).col = 0 ∧
    (scrollWriter.new_line).row = 24 ∧
    (scrollWriter.new_line).buffer.chars (1 - 1) 5 = scrollWriter.buffer.chars 1 5 ∧
    (scrollWriter.new_line).buffer.chars 24 3 =
      ⟨32, ColorCode.new scrollWriter.text_color scrollWriter.background⟩ :=
  ⟨(C1_new_line_transition scrollWriter).1,
   ((C1_new_line_transition scrollWriter).2.2 rfl).1,
   ((C1_new_line_transition scrollWriter).2.2 rfl).2.1 1 5 (by decide) (by decide) (by decide),
   ((C1_new_line_transition scrollWriter).2.2 rfl).2.2 3 (by decide)⟩

/-- C2: starting from any writer whose row is at most 24, every public
operation (write_byte, write_colored_byte, write_string, write_colored_string,
new_line, clear_row) leaves the row at most 24, and a new_line taken on row 24
keeps the writer on row 24. -/
theorem C2_row_invariant (w : Writer) (h : w.row ≤ 24) :
    (∀ b, (w.write_byte b).row ≤ 24) ∧
    (∀ b tc bg, (w.write_colored_byte b tc bg).row ≤ 24) ∧
    (∀ s, (w.write_string s).row ≤ 24) ∧
    (∀ s tc bg, (w.write_colored_string s tc bg).row ≤ 24) ∧
    (w.new_line).row ≤ 24 ∧
    (∀ r, (w.clear_row r).row ≤ 24) ∧
    (w.row = 24 → (w.new_line).row = 24) := by
  have h24 : w.row ≤ BUFFER_HEIGHT - 1 := h
  refine ⟨fun b => wcb_row_le w b _ _ h24,
    fun b tc bg => wcb_row_le w b tc bg h24,
    fun s => write_string_row_le s w h24,
    fun s tc bg => write_colored_string_row_le s w tc bg h24,
    new_line_row_le w h24,
    fun r => h,
    ?_⟩
  intro heq
  rw [new_line_row_of_eq w heq]
  exact heq

/-- Witness for C2 at concrete writers (one in the interior, one scrolling). -/
theorem C2_row_invariant_witness :
    (initialWriter.write_byte 65).row ≤ 24 ∧
    (initialWriter.write_string [72, 10, 200]).row ≤ 24 ∧
    (scrollWriter.new_line).row = 24 :=
  ⟨(C2_row_invariant initialWriter (by decide)).1 65,
   (C2_row_invariant initialWriter (by decide)).2.2.1 [72, 10, 200],
   (C2_row_invariant scrollWriter (by decide)).2.2.2.2.2.2 rfl⟩

/-- C3: for a byte outside the printable range [0x20, 0x7e] and different from
the newline code, write_string writes the substitution glyph 0xFE instead of
the byte, with Yellow text when the current background is Red and Red text
otherwise, keeping the current background. -/
theorem C3_write_string_substitution (w : Writer) (b : Nat)
    (hb1 : ¬ (0x20 ≤ b ∧ b ≤ 0x7e)) (hb2 : ¬ b = 10) (hcol : w.col < 80) :
    (w.write_string [b]).buffer.chars w.row w.col =
      ⟨0xfe,
        ColorCode.new (if w.background = Color.Red then Color.Yellow else Color.Red)
          w.background⟩ := by
  have hws : w.write_string [b] = w.write_string_step b := rfl
  rw [hws]
  unfold Writer.write_string_step
  rw [if_neg (not_or.mpr ⟨hb1, hb2⟩)]
  by_cases hbg : w.background = Color.Red
  · rw [if_pos hbg, wcb_of_lt w 0xfe Color.Yellow w.background (by omega) hcol]
    show (w.buffer.write w.row w.col _).chars w.row w.col = _
    rw [Buffer.chars_write, if_pos ⟨rfl, rfl⟩, if_pos hbg]
  · rw [if_neg hbg, wcb_of_lt w 0xfe Color.Red w.background (by omega) hcol]
    show (w.buffer.write w.row w.col _).chars w.row w.col = _
    rw [Buffer.chars_write, if_pos ⟨rfl, rfl⟩, if_neg hbg]

/-- Witness for C3 at byte 200 on the initial writer. -/
theorem C3_write_string_substitution_witness :
    (initialWriter.write_string [200]).buffer.chars 0 0 =
      ⟨0xfe,
        ColorCode.new
          (if initialWriter.background = Color.Red then Color.Yellow else Color.Red)
          initialWriter.background⟩ :=
  C3_write_string_substitution initialWriter 200 (by decide) (by decide) (by decide)

/-- C4: write_colored_byte on the newline byte performs exactly the line-break
transition and writes no cell; on any other byte it first performs a line break
when the column is at or past 80, then writes exactly one cell holding the byte
and the packed caller colors at the current cursor and advances the column by
one. -/
theorem C4_write_colored_byte_spec (w : Writer) (b : Nat) (tc bg : Color) :
    (b = 10 → w.write_colored_byte b tc bg = w.new_line) ∧
    (¬ b = 10 → w.col < 80 →
      (w.write_colored_byte b tc bg).buffer.chars w.row w.col = ⟨b, ColorCode.new tc bg⟩ ∧
      (w.write_colored_byte b tc bg).row = w.row ∧
      (w.write_colored_byte b tc bg).col = w.col + 1 ∧
      (∀ i j, ¬ (i = w.row ∧ j = w.col) →
        (w.write_colored_byte b tc bg).buffer.chars i j = w.buffer.chars i j)) ∧
    (¬ b = 10 → 80 ≤ w.col →
      (w.write_colored_byte b tc bg).buffer.chars (w.new_line).row 0 =
        ⟨b, ColorCode.new tc bg⟩ ∧
      (w.write_colored_byte b tc bg).row = (w.new_line).row ∧
      (w.write_colored_byte b tc bg).col = 1 ∧
      (∀ i j, ¬ (i = (w.new_line).row ∧ j = 0) →
        (w.write_colored_byte b tc bg).buffer.chars i j = (w.new_line).buffer.chars i j)) := by
  refine ⟨?_, ?_, ?_⟩
  · intro h
    rw [h, wcb_of_newline]
  · intro h10 hcol
    rw [wcb_of_lt w b tc bg h10 hcol]
    refine ⟨?_, rfl, rfl, ?_⟩
    · show (w.buffer.write w.row w.col _).chars w.row w.col = _
      rw [Buffer.chars_write, if_pos ⟨rfl, rfl⟩]
    · intro i j hij
      show (w.buffer.write w.row w.col _).chars i j = _
      rw [Buffer.chars_write, if_neg hij]
  · intro h10 hcol
    rw [wcb_of_ge w b tc bg h10 hcol]
    refine ⟨?_, rfl, ?_, ?_⟩
    · show ((w.new_line).buffer.write (w.new_line).row (w.new_line).col _).chars
        (w.new_line).row 0 = _
      rw [Buffer.chars_write, if_pos ⟨rfl, (new_line_col w).symm⟩]
    · show (w.new_line).col + 1 = 1
      rw [new_line_col]
    · intro i j hij
      show ((w.new_line).buffer.write (w.new_line).row (w.new_line).col _).chars i j = _
      rw [Buffer.chars_write, if_neg (by rw [new_line_col]; exact hij)]

/-- Witness for C4 at concrete writers and bytes. -/
theorem C4_write_colored_byte_spec_witness :
    initialWriter.write_colored_byte 10 Color.Green Color.Black = initialWriter.new_line ∧
    (initialWriter.write_colored_byte 65 Color.Green Color.Black).buffer.chars 0 0 =
      ⟨65, ColorCode.new Color.Green Color.Black⟩ ∧
    (fullColWriter.write_colored_byte 66 Color.Green Color.Black).col = 1 :=
  ⟨(C4_write_colored_byte_spec initialWriter 10 Color.Green Color.Black).1 rfl,
   ((C4_write_colored_byte_spec initialWriter 65 Color.Green Color.Black).2.1
      (by decide) (by decide)).1,
   ((C4_write_colored_byte_spec fullColWriter 66 Color.Green Color.Black).2.2
      (by decide) (by decide)).2.2.1⟩

/-- C5: for all 256 color pairs, the packed color byte produced by
ColorCode.new equals background * 16 + foreground, so its high nibble decodes
to the background code and its low nibble to the foreground code. -/
theorem C5_color_roundtrip :
    ∀ fg bg : Color,
      (ColorCode.new fg bg).code = bg.toNat * 16 + fg.toNat ∧
      (ColorCode.new fg bg).code / 16 = bg.toNat ∧
      (ColorCode.new fg bg).code % 16 = fg.toNat := by
  decide

/-- C6: the formatted-write entry point never panics: it always returns the
written writer (the unwrap in the source is unreachable because write_str
always returns Ok), and, from any state respecting the row invariant, no cell
outside the 25 by 80 grid is ever touched while writing. -/
theorem C6_print_never_panics (w : Writer) (s : List Nat) :
    w.print s = some (w.write_string s) ∧
    (w.row ≤ 24 → ∀ i j, 25 ≤ i ∨ 80 ≤ j →
      (w.write_string s).buffer.chars i j = w.buffer.chars i j) := by
  refine ⟨rfl, ?_⟩
  intro h i j hij
  exact write_string_oob s w i j h hij

/-- Witness for C6 on a mixed byte sequence from the initial writer. -/
theorem C6_print_never_panics_witness :
    initialWriter.print [72, 10, 200] = some (initialWriter.write_string [72, 10, 200]) ∧
    (initialWriter.write_string [72, 10, 200]).buffer.chars 30 0 =
      initialWriter.buffer.chars 30 0 :=
  ⟨(C6_print_never_panics initialWriter [72, 10, 200]).1,
   (C6_print_never_panics initialWriter [72, 10, 200]).2 (by decide) 30 0 (Or.inl (by decide))⟩

/-- C7: writing a newline-free sequence of printable bytes shorter than 80
from the start of a line leaves the row unchanged and the column equal to the
length of the sequence. -/
theorem C7_write_string_line_cursor (w : Writer) (s : List Nat) (hcol : w.col = 0)
    (hlen : s.length < 80) (hp : ∀ b ∈ s, 0x20 ≤ b ∧ b ≤ 0x7e) :
    (w.write_string s).row = w.row ∧ (w.write_string s).col = s.length := by
  have h := write_string_printable_cursor s w hp
    (by rw [hcol]; show 0 + s.length ≤ BUFFER_WIDTH; simp [BUFFER_WIDTH]; omega)
  refine ⟨h.1, ?_⟩
  rw [h.2, hcol]
  omega

/-- Witness for C7 on the five printable bytes of a greeting. -/
theorem C7_write_string_line_cursor_witness :
    (initialWriter.write_string [72, 101, 108, 108, 111]).row = initialWriter.row ∧
    (initialWriter.write_string [72, 101, 108, 108, 111]).col = 5 :=
  C7_write_string_line_cursor initialWriter [72, 101, 108, 108, 111] rfl
    (by decide) (by decide)

/-- C8: write_string processes every input byte through its per-byte step in
order, and each byte produces either the line-break transition (the newline
byte) or exactly one cell written at the post-wrap cursor with the column
advanced by one; no byte is dropped. -/
theorem C8_every_byte_processed (w : Writer) (b : Nat) (s : List Nat) :
    w.write_string (b :: s) = (w.write_string_step b).write_string s ∧
    (b = 10 → w.write_string_step b = w.new_line) ∧
    (¬ b = 10 →
      ∃ a cc,
        (w.write_string_step b).buffer =
          Buffer.write (if BUFFER_WIDTH ≤ w.col then w.new_line else w).buffer
            (if BUFFER_WIDTH ≤ w.col then w.new_line else w).row
            (if BUFFER_WIDTH ≤ w.col then w.new_line else w).col ⟨a, cc⟩ ∧
        (w.write_string_step b).col =
          (if BUFFER_WIDTH ≤ w.col then w.new_line else w).col + 1) := by
  refine ⟨rfl, ?_, ?_⟩
  · intro h
    subst h
    unfold Writer.write_string_step
    rw [if_pos (Or.inr rfl)]
    exact wcb_of_newline w _ _
  · intro h10
    unfold Writer.write_string_step Writer.write_byte
    by_cases hpr : (0x20 ≤ b ∧ b ≤ 0x7e) ∨ b = 10
    · rw [if_pos hpr]
      refine ⟨b, ColorCode.new w.text_color w.background, ?_⟩
      by_cases hcol : BUFFER_WIDTH ≤ w.col
      · rw [wcb_of_ge w b _ _ h10 hcol, if_pos hcol]
        exact ⟨rfl, rfl⟩
      · rw [wcb_of_lt w b _ _ h10 (by omega), if_neg hcol]
        exact ⟨rfl, rfl⟩
    · rw [if_neg hpr]
      by_cases hbg : w.background = Color.Red
      · rw [if_pos hbg]
        refine ⟨0xfe, ColorCode.new Color.Yellow w.background, ?_⟩
        by_cases hcol : BUFFER_WIDTH ≤ w.col
        · rw [wcb_of_ge w 0xfe _ _ (by omega) hcol, if_pos hcol]
          exact ⟨rfl, rfl⟩
        · rw [wcb_of_lt w 0xfe _ _ (by omega) (by omega), if_neg hcol]
          exact ⟨rfl, rfl⟩
      · rw [if_neg hbg]
        refine ⟨0xfe, ColorCode.new Color.Red w.background, ?_⟩
        by_cases hcol : BUFFER_WIDTH ≤ w.col
        · rw [wcb_of_ge w 0xfe _ _ (by omega) hcol, if_pos hcol]
          exact ⟨rfl, rfl⟩
        · rw [wcb_of_lt w 0xfe _ _ (by omega) (by omega), if_neg hcol]
          exact ⟨rfl, rfl⟩

/-- Witness for C8 at a newline byte and at a printable byte. -/
theorem C8_every_byte_processed_witness :
    initialWriter.write_string [10, 65] =
      (initialWriter.write_string_step 10).write_string [65] ∧
    initialWriter.write_string_step 10 = initialWriter.new_line ∧
    (∃ a cc,
      (initialWriter.write_string_step 65).buffer =
        Buffer.write
          (if BUFFER_WIDTH ≤ initialWriter.col then initialWriter.new_line
            else initialWriter).buffer
          (if BUFFER_WIDTH ≤ initialWriter.col then initialWriter.new_line
            else initialWriter).row
          (if BUFFER_WIDTH ≤ initialWriter.col then initialWriter.new_line
            else initialWriter).col ⟨a, cc⟩ ∧
      (initialWriter.write_string_step 65).col =
        (if BUFFER_WIDTH ≤ initialWriter.col then initialWriter.new_line
          else initialWriter).col + 1) :=
  ⟨(C8_every_byte_processed initialWriter 10 [65]).1,
   (C8_every_byte_processed initialWriter 10 [65]).2.1 rfl,
   (C8_every_byte_processed initialWriter 65 []).2.2 (by decide)⟩

/-- C9: clearing a row at most 24 twice in a row leaves the writer in exactly
the state of clearing it once, and the cleared row holds blank cells (ASCII
space packed with the current default colors). -/
theorem C9_clear_row_idempotent (w : Writer) (r : Nat) (_hr : r ≤ 24) :
    (w.clear_row r).clear_row r = w.clear_row r ∧
    (∀ c, c < 80 →
      (w.clear_row r).buffer.chars r c = ⟨32, ColorCode.new w.text_color w.background⟩) := by
  constructor
  · have hbuf : ((w.clear_row r).clear_row r).buffer = (w.clear_row r).buffer := by
      apply Buffer.ext
      funext i j
      rw [clear_row_buffer, clear_row_buffer]
      by_cases hc : i = r ∧ j < BUFFER_WIDTH
      · rw [if_pos hc, if_pos hc]
        rfl
      · rw [if_neg hc, if_neg hc]
    show { (w.clear_row r) with buffer := ((w.clear_row r).clear_row r).buffer } =
      w.clear_row r
    rw [hbuf]
  · intro c hc
    rw [clear_row_buffer, if_pos ⟨rfl, hc⟩]
    rfl

/-- Witness for C9 at row 3 on the initial writer. -/
theorem C9_clear_row_idempotent_witness :
    (initialWriter.clear_row 3).clear_row 3 = initialWriter.clear_row 3 ∧
    (initialWriter.clear_row 3).buffer.chars 3 0 =
      ⟨32, ColorCode.new initialWriter.text_color initialWriter.background⟩ :=
  ⟨(C9_clear_row_idempotent initialWriter 3 (by decide)).1,
   (C9_clear_row_idempotent initialWriter 3 (by decide)).2 0 (by decide)⟩

/-- C10: write_colored_string writes a byte outside the printable range (and
different from newline) verbatim into the grid, packed with the caller
supplied colors, with no substitution glyph and no contrast adjustment. -/
theorem C10_write_colored_string_verbatim (w : Writer) (b : Nat) (tc bg : Color)
    (hb1 : ¬ (0x20 ≤ b ∧ b ≤ 0x7e)) (hb2 : ¬ b = 10) (hcol : w.col < 80) :
    (w.write_colored_string [b] tc bg).buffer.chars w.row w.col =
      ⟨b, ColorCode.new tc bg⟩ := by
  have hws : w.write_colored_string [b] tc bg = w.write_colored_byte b tc bg := by
    unfold Writer.write_colored_string
    rw [List.foldl_cons, List.foldl_nil, if_neg (not_or.mpr ⟨hb1, hb2⟩)]
  rw [hws, wcb_of_lt w b tc bg hb2 hcol]
  show (w.buffer.write w.row w.col _).chars w.row w.col = _
  rw [Buffer.chars_write, if_pos ⟨rfl, rfl⟩]

/-- Witness for C10 at the non-printable byte 200 with explicit colors. -/
theorem C10_write_colored_string_verbatim_witness :
    (initialWriter.write_colored_string [200] Color.Green Color.Blue).buffer.chars 0 0 =
      ⟨200, ColorCode.new Color.Green Color.Blue⟩ :=
  C10_write_colored_string_verbatim initialWriter 200 Color.Green Color.Blue
    (by decide) (by decide) (by decide)

end VGA
